import Mathlib

/-!
Shallow embedding of `hearinglosssimulator/offlinehelper.py`.

The harness drives an opaque per-chunk audio transform ("adapter") over a
2-D (time × channel) buffer:
* `loopRun` embeds the generator `loop()` built by `make_processing_loop`
  (fuel-indexed, since the Python loop can diverge for an adapter that never
  reports a position past the nominal length);
* `handleEntry` / `run_one_class_offline` embed the offline reassembly of
  adapter outputs into lazily allocated destination buffers, using Python /
  numpy slice semantics (`pySlice`, `pySetSlice`, `sliceIdx`);
* `streamRun` / `compute_wave_file` embed the streaming path with the
  duration cap, the output wave file being modelled as the list of rows
  written to it and the soundfile availability flag as a boolean;
* `InvCGCmodel` models the external `InvCGC` processing class (not part of
  the embedded source file) from its documented interface contract.

Samples are kept abstract (`α` with a zero); the harness itself only copies
and zero-fills sample values, so no floating-point arithmetic needs to be
modelled.  The numpy dtype is tracked as a nominal `String` tag.
-/

set_option linter.unusedVariables false

namespace HLS

/-- Python slice-endpoint normalisation for a sequence of length `n`:
a negative index counts from the end, and the result is clamped to `[0, n]`. -/
def sliceIdx (n : Nat) (i : Int) : Nat :=
  let j := if i < 0 then (n : Int) + i else i
  if j < 0 then 0 else if (n : Int) < j then n else j.toNat

/-- Python `l[s:e]` (unit step). -/
def pySlice (l : List α) (s e : Int) : List α :=
  let s' := sliceIdx l.length s
  let e' := sliceIdx l.length e
  (l.drop s').take (e' - s')

/-- numpy `l[s:e] = v` (unit step); faithful whenever the slice `[s, e)` has
exactly `v.length` elements, which is the only way the embedded code uses it
(the offline reassembler guards every write by that equality). -/
def pySetSlice (l : List α) (s e : Int) (v : List α) : List α :=
  let s' := sliceIdx l.length s
  let e' := sliceIdx l.length e
  l.take s' ++ v ++ l.drop e'

/-- A 2-D numpy array of samples: a list of time rows (each row one sample per
channel), together with its channel count and its dtype tag. -/
structure Buf (α : Type) where
  rows : List (List α)
  nbChannel : Nat
  dtype : String
deriving Repr, DecidableEq

/-- `shape[0]` of a buffer. -/
def Buf.timeLength (b : Buf α) : Nat := b.rows.length

/-- `np.zeros((n, ch), dtype=dtype)`. -/
def zerosBuf [Zero α] (n ch : Nat) (dtype : String) : Buf α :=
  ⟨List.replicate n (List.replicate ch 0), ch, dtype⟩

/-- Python dict assignment `d[k] = v` on an insertion-ordered association
list: update in place if the key is present, else append. -/
def setA (k : String) (v : β) : List (String × β) → List (String × β)
  | [] => [(k, v)]
  | (k', v') :: t => if k' = k then (k, v) :: t else (k', v') :: setA k v t

/-- One adapter output stream entry: reported absolute end position (or
`None` during warm-up) and the output chunk (or `None`). -/
abbrev StreamVal (α : Type) := Option Nat × Option (Buf α)

/-- The mapping returned by one `proccesing_func` call, in dict iteration
(insertion) order. -/
abbrev Results (α : Type) := List (String × StreamVal α)

/-- The processing adapter: constructed state plus the per-chunk transform
`proccesing_func(index, chunk)`, with the Python object's mutable internal
state made explicit. -/
structure Adapter (σ α : Type) where
  init : σ
  proc : σ → Nat → Buf α → σ × Results α

/-- The input chunk of one scheduler iteration:
`in_buffer[index-chunksize:index, :]` when `index <= buffer_size`, else
`np.zeros((chunksize, in_buffer.shape[1]), dtype=dtype)`. -/
def mkChunk [Zero α] (in_buffer : Buf α) (chunksize buffer_size index : Nat)
    (dtype : String) : Buf α :=
  if index ≤ buffer_size then
    ⟨pySlice in_buffer.rows ((index : Int) - (chunksize : Int)) (index : Int),
      in_buffer.nbChannel, in_buffer.dtype⟩
  else
    ⟨List.replicate chunksize (List.replicate in_buffer.nbChannel 0),
      in_buffer.nbChannel, dtype⟩

/-- The mutable state of the `loop()` generator: the adapter's state, the
running `index`, and the last reported `out_index` of `main_output`. -/
structure LoopSt (σ : Type) where
  procSt : σ
  index : Nat
  outIndex : Option Nat

/-- The `while out_index is None or out_index < buffer_size` guard. -/
def continueLoop (buffer_size : Nat) : Option Nat → Bool
  | none => true
  | some p => p < buffer_size

/-- One iteration of the loop body: advance the index, build the chunk, call
the adapter, and read off `returns['main_output']` (`none` models the
`KeyError` when the adapter breaks its contract). -/
def loopIter [Zero α] (A : Adapter σ α) (in_buffer : Buf α)
    (chunksize buffer_size : Nat) (dtype : String) (st : LoopSt σ) :
    Option (LoopSt σ × Results α) :=
  let index := st.index + chunksize
  let in_chunk := mkChunk in_buffer chunksize buffer_size index dtype
  let pr := A.proc st.procSt index in_chunk
  match (pr.2).lookup "main_output" with
  | none => none
  | some v => some (⟨pr.1, index, v.1⟩, pr.2)

/-- The `loop()` generator, fuel-indexed: the list of yielded result
mappings, `none` on adapter-contract failure or fuel exhaustion. -/
def loopRun [Zero α] (A : Adapter σ α) (in_buffer : Buf α)
    (chunksize buffer_size : Nat) (dtype : String) :
    Nat → LoopSt σ → Option (List (Results α))
  | 0, st => if continueLoop buffer_size st.outIndex then none else some []
  | fuel + 1, st =>
    if continueLoop buffer_size st.outIndex then
      match loopIter A in_buffer chunksize buffer_size dtype st with
      | none => none
      | some (st', rets) =>
        (loopRun A in_buffer chunksize buffer_size dtype fuel st').map (rets :: ·)
    else some []

/-- `make_processing_loop`: builds the loop over the whole input.  As in the
source, `buffer_size2 = buffer_size + buffersize_margin` is computed but
never used afterwards; the loop guard and the chunk extraction use only the
nominal `buffer_size`.  (The timing instrumentation only prints and is not
modelled.) -/
def make_processing_loop [Zero α] (A : Adapter σ α) (in_buffer : Buf α)
    (chunksize : Nat) (dtype : String) (buffersize_margin : Nat) (fuel : Nat) :
    Option (List (Results α)) :=
  let buffer_size := in_buffer.timeLength
  let buffer_size2 := buffer_size + buffersize_margin
  loopRun A in_buffer chunksize buffer_size dtype fuel ⟨A.init, 0, none⟩

/-- Offline reassembly of a single `(streamName, (pos, out_chunk))` entry:
skip on `pos = None`; else lazily allocate the destination, and write
`out_chunk` at `[pos - len, pos)` only when that destination slice has
exactly `len` rows.  `none` models the crash on a non-null position with
null data. -/
def handleEntry [Zero α] (buffer_size : Nat) (dtype : String)
    (arrs : List (String × Buf α)) (e : String × StreamVal α) :
    Option (List (String × Buf α)) :=
  match e with
  | (_, (none, _)) => some arrs
  | (k, (some pos, dat)) =>
    match dat with
    | none => none
    | some out_chunk =>
      let arrs1 := if (arrs.lookup k).isNone then
          setA k (zerosBuf buffer_size out_chunk.nbChannel dtype) arrs
        else arrs
      match arrs1.lookup k with
      | none => none
      | some arr =>
        let L := out_chunk.timeLength
        if (pySlice arr.rows ((pos : Int) - (L : Int)) (pos : Int)).length = L then
          some (setA k
            ⟨pySetSlice arr.rows ((pos : Int) - (L : Int)) (pos : Int) out_chunk.rows,
              arr.nbChannel, arr.dtype⟩ arrs1)
        else some arrs1

/-- Offline reassembly of one full result mapping (the inner `for` of
`run_one_class_offline`). -/
def processReturns [Zero α] (buffer_size : Nat) (dtype : String)
    (arrs : List (String × Buf α)) (rets : Results α) :
    Option (List (String × Buf α)) :=
  rets.foldlM (handleEntry buffer_size dtype) arrs

/-- `run_one_class_offline`: run the loop and reassemble every yielded
result into the per-stream destination buffers. -/
def run_one_class_offline [Zero α] (A : Adapter σ α) (in_buffer : Buf α)
    (chunksize : Nat) (dtype : String) (buffersize_margin : Nat) (fuel : Nat) :
    Option (List (String × Buf α)) :=
  match make_processing_loop A in_buffer chunksize dtype buffersize_margin fuel with
  | none => none
  | some retss => retss.foldlM (processReturns in_buffer.timeLength dtype) []

/-- The duration-cap test of `compute_wave_file`:
`duration_limit is not None and out_index is not None and
out_index/sample_rate >= duration_limit` (the float division modelled
over `ℚ`). -/
def capHit (sample_rate : ℚ) (duration_limit : Option ℚ) : Option Nat → Bool
  | oi =>
    match duration_limit, oi with
    | some lim, some p => decide ((p : ℚ) / sample_rate ≥ lim)
    | _, _ => false

/-- The streaming consumer loop of `compute_wave_file`: run the scheduler,
append each non-null `main_output` chunk to the sink (the output wave file,
modelled as its list of written rows) and break as soon as the duration cap
is hit. -/
def streamRun [Zero α] (A : Adapter σ α) (in_buffer : Buf α)
    (chunksize buffer_size : Nat) (dtype : String) (sample_rate : ℚ)
    (duration_limit : Option ℚ) :
    Nat → LoopSt σ → List (List α) → Option (List (List α))
  | 0, st, sink => if continueLoop buffer_size st.outIndex then none else some sink
  | fuel + 1, st, sink =>
    if continueLoop buffer_size st.outIndex then
      match loopIter A in_buffer chunksize buffer_size dtype st with
      | none => none
      | some (st', rets) =>
        match rets.lookup "main_output" with
        | none => none
        | some (oi, dat) =>
          let sink' := match dat with
            | some d => sink ++ d.rows
            | none => sink
          if capHit sample_rate duration_limit oi then some sink'
          else
            streamRun A in_buffer chunksize buffer_size dtype sample_rate
              duration_limit fuel st' sink'
    else some sink

/-- Modelled from the spec: the `InvCGC` processing class is imported by
`offlinehelper.py` but its module is not part of the embedded source file.
Per the spec's adapter contract it returns a `main_output` entry on every
call, reports a `None` position for some number `w` of warm-up calls, and
thereafter reports the absolute end position `index - D` for a fixed
delay-compensation lag `D`, with the output chunk covering exactly the rows
between consecutive reported positions and carrying the constructed channel
count.  Sample values are irrelevant to the claims and modelled as zeros. -/
def InvCGCmodel [Zero α] (nb_channel chunksize D w : Nat) (dtype : String) :
    Adapter Nat α where
  init := 0
  proc := fun i index _chunk =>
    (i + 1,
      [("main_output",
        if i < w then (none, none)
        else
          (some (index - D),
            some ⟨List.replicate (if i = w then index - D else chunksize)
                (List.replicate nb_channel 0), nb_channel, dtype⟩))])

/-- `compute_wave_file`: the availability of the soundfile backend is
modelled as the boolean `hasSoundfile` (the module-level `HAS_SOUNDFILE`
flag), the input wave file as a `Buf`, the output wave file as the returned
list of written rows, and the `InvCGC` adapter by `InvCGCmodel` with warm-up
`w` and delay `D`.  The two leading `assert` statements become the two error
returns, in source order, before any chunk is read or processed. -/
def compute_wave_file [Zero α] (hasSoundfile : Bool)
    (in_filename out_filename : String) (in_buffer : Buf α) (D w : Nat)
    (chunksize : Nat) (sample_rate : ℚ) (duration_limit : Option ℚ)
    (fuel : Nat) : Except String (List (List α)) :=
  if ¬ hasSoundfile then Except.error "soundfile need to be installed"
  else if in_filename = out_filename then
    Except.error "assert in_filename != out_filename"
  else
    match streamRun (InvCGCmodel in_buffer.nbChannel chunksize D w "float32")
        in_buffer chunksize in_buffer.timeLength "float32" sample_rate
        duration_limit fuel ⟨0, 0, none⟩ [] with
    | none => Except.error "processing loop failed"
    | some sink => Except.ok sink

/-- A numpy array of rank 1 or 2, as accepted by `compute_numpy`. -/
inductive NdArray (α : Type) where
  | one : List α → NdArray α
  | two : Buf α → NdArray α
deriving Repr, DecidableEq

/-- `compute_numpy`: lift a 1-D input to a single-channel 2-D buffer, run
`run_one_class_offline` with the `InvCGC` adapter (modelled by
`InvCGCmodel`) at dtype `float32` and with `buffersize_margin =
backward_chunksize`, take the `main_output` destination buffer, and project
back to 1-D if the input was 1-D.  `astype('float32')` is modelled as the
dtype-tag change. -/
def compute_numpy [Zero α] (D w : Nat) (sound : NdArray α)
    (chunksize backward_chunksize : Nat) (fuel : Nat) : Option (NdArray α) :=
  match sound with
  | NdArray.one l =>
    let sound2 : Buf α := ⟨l.map (fun x => [x]), 1, "float32"⟩
    match run_one_class_offline
        (InvCGCmodel sound2.nbChannel chunksize D w "float32") sound2
        chunksize "float32" backward_chunksize fuel with
    | none => none
    | some arrs =>
      match arrs.lookup "main_output" with
      | none => none
      | some out => some (NdArray.one (out.rows.map (fun r => r.headD 0)))
  | NdArray.two b =>
    let sound2 : Buf α := ⟨b.rows, b.nbChannel, "float32"⟩
    match run_one_class_offline
        (InvCGCmodel sound2.nbChannel chunksize D w "float32") sound2
        chunksize "float32" backward_chunksize fuel with
    | none => none
    | some arrs =>
      match arrs.lookup "main_output" with
      | none => none
      | some out => some (NdArray.two out)

/-- The pass-through adapter of the spec's concrete scenario: no warm-up,
position always the chunk's end index, data the input chunk itself. -/
def passAdapter [Zero α] : Adapter Unit α where
  init := ()
  proc := fun s index chunk => (s, [("main_output", (some index, some chunk))])

/-- The position `InvCGCmodel` reports on its j-th call (0-based) when the
loop feeds it index `(j+1)·chunksize`: `None` during the `w` warm-up calls,
then the delay-compensated end position `(j+1)·chunksize - D`. -/
def posAt (cs D w j : Nat) : Option Nat :=
  if j < w then none else some ((j + 1) * cs - D)

/-- The main-output position last reported before the i-th call of
`InvCGCmodel` (none before the first call). -/
def prevPos (cs D w : Nat) : Nat → Option Nat
  | 0 => none
  | i + 1 => posAt cs D w i

/-- The total number of output rows `InvCGCmodel` has emitted over its
first `i` calls. -/
def cumF (cs D w i : Nat) : Nat := if i ≤ w then 0 else i * cs - D

/-! ### Helper lemmas about the slice semantics and association lists -/

theorem sliceIdx_le (n : Nat) (i : Int) : sliceIdx n i ≤ n := by
  simp only [sliceIdx]
  split_ifs <;> omega

theorem sliceIdx_of_le (n m : Nat) (h : m ≤ n) : sliceIdx n (m : Int) = m := by
  simp only [sliceIdx]
  split_ifs <;> omega

theorem pySlice_length (l : List α) (s e : Int) :
    (pySlice l s e).length = sliceIdx l.length e - sliceIdx l.length s := by
  have he := sliceIdx_le l.length e
  simp only [pySlice, List.length_take, List.length_drop]
  omega

theorem lookup_setA_self (l : List (String × β)) (k : String) (v : β) :
    (setA k v l).lookup k = some v := by
  induction l with
  | nil => simp [setA, List.lookup_cons]
  | cons hd t ih =>
    obtain ⟨k', v'⟩ := hd
    simp only [setA]
    split_ifs with hk
    · simp [List.lookup_cons]
    · have hkk : (k == k') = false := by
        simp only [beq_eq_false_iff_ne]
        exact fun h => hk h.symm
      simp [List.lookup_cons, hkk, ih]

theorem lookup_setA_ne (l : List (String × β)) (k k' : String) (v : β)
    (h : k' ≠ k) : (setA k v l).lookup k' = l.lookup k' := by
  have hkk : (k' == k) = false := by simp only [beq_eq_false_iff_ne]; exact h
  induction l with
  | nil => simp [setA, List.lookup_cons, List.lookup_nil, hkk]
  | cons hd t ih =>
    obtain ⟨k₀, v₀⟩ := hd
    simp only [setA]
    split_ifs with hk
    · subst hk
      simp [List.lookup_cons, hkk]
    · simp only [List.lookup_cons]
      cases k' == k₀ <;> simp [ih]

theorem lookup_setA_or (l : List (String × β)) (k k'' : String) (v a : β)
    (h : (setA k v l).lookup k'' = some a) : a = v ∨ l.lookup k'' = some a := by
  by_cases hk : k'' = k
  · subst hk
    rw [lookup_setA_self] at h
    exact Or.inl (Option.some_injective _ h).symm
  · rw [lookup_setA_ne l k k'' v hk] at h
    exact Or.inr h

theorem slice_write_bounds (rows : List β) (p L : Nat) (hL : 0 < L)
    (hg : (pySlice rows ((p : Int) - (L : Int)) (p : Int)).length = L) :
    L ≤ p ∧ p ≤ rows.length ∧
      sliceIdx rows.length ((p : Int) - (L : Int)) = p - L ∧
      sliceIdx rows.length (p : Int) = p := by
  rw [pySlice_length] at hg
  simp only [sliceIdx] at hg ⊢
  split_ifs at hg ⊢ <;> omega

theorem pySetSlice_eq (rows : List β) (p L : Nat) (v : List β) (hL : 0 < L)
    (hg : (pySlice rows ((p : Int) - (L : Int)) (p : Int)).length = L) :
    pySetSlice rows ((p : Int) - (L : Int)) (p : Int) v
      = rows.take (p - L) ++ v ++ rows.drop p := by
  obtain ⟨_, _, h3, h4⟩ := slice_write_bounds rows p L hL hg
  simp only [pySetSlice, h3, h4]

theorem pySetSlice_length (rows : List β) (p L : Nat) (v : List β)
    (hv : v.length = L)
    (hg : (pySlice rows ((p : Int) - (L : Int)) (p : Int)).length = L) :
    (pySetSlice rows ((p : Int) - (L : Int)) (p : Int) v).length = rows.length := by
  rcases Nat.eq_zero_or_pos L with h0 | hL
  · subst h0
    have hv' : v = [] := List.eq_nil_of_length_eq_zero hv
    subst hv'
    have := sliceIdx_le rows.length ((p : Int) - ((0 : Nat) : Int))
    have h2 : ((p : Int) - ((0 : Nat) : Int)) = (p : Int) := by
      simp
    rw [h2] at this ⊢
    simp only [pySetSlice, List.append_nil, List.length_append, List.length_take,
      List.length_drop]
    omega
  · rw [pySetSlice_eq rows p L v hL hg]
    obtain ⟨h1, h2, _, _⟩ := slice_write_bounds rows p L hL hg
    simp only [List.length_append, List.length_take, List.length_drop, hv]
    omega

theorem handleEntry_none [Zero α] (bs : Nat) (dt : String)
    (arrs : List (String × Buf α)) (k : String) (d : Option (Buf α)) :
    handleEntry bs dt arrs (k, (none, d)) = some arrs := rfl

theorem handleEntry_existing [Zero α] (bs : Nat) (dt : String)
    (arrs : List (String × Buf α)) (k : String) (p : Nat) (c arr : Buf α)
    (hk : arrs.lookup k = some arr) :
    handleEntry bs dt arrs (k, (some p, some c)) =
      some (if (pySlice arr.rows ((p : Int) - (c.timeLength : Int))
            (p : Int)).length = c.timeLength
        then setA k ⟨pySetSlice arr.rows ((p : Int) - (c.timeLength : Int))
            (p : Int) c.rows, arr.nbChannel, arr.dtype⟩ arrs
        else arrs) := by
  simp only [handleEntry, hk, Option.isNone_some, Bool.false_eq_true, if_false]
  split_ifs <;> rfl

theorem handleEntry_fresh [Zero α] (bs : Nat) (dt : String)
    (arrs : List (String × Buf α)) (k : String) (p : Nat) (c : Buf α)
    (hk : arrs.lookup k = none) :
    handleEntry bs dt arrs (k, (some p, some c)) =
      some (if (pySlice (zerosBuf (α := α) bs c.nbChannel dt).rows
            ((p : Int) - (c.timeLength : Int)) (p : Int)).length = c.timeLength
        then setA k ⟨pySetSlice (zerosBuf (α := α) bs c.nbChannel dt).rows
            ((p : Int) - (c.timeLength : Int)) (p : Int) c.rows,
            c.nbChannel, dt⟩ (setA k (zerosBuf bs c.nbChannel dt) arrs)
        else setA k (zerosBuf bs c.nbChannel dt) arrs) := by
  simp only [handleEntry, hk, Option.isNone_none, if_true,
    lookup_setA_self, zerosBuf]
  try (split_ifs <;> rfl)

theorem mkChunk_real [Zero α] (buf : Buf α) (cs bs index : Nat) (dt : String)
    (hbs : buf.rows.length = bs) (hcs : cs ≤ index) (h : index ≤ bs) :
    mkChunk buf cs bs index dt
      = ⟨(buf.rows.drop (index - cs)).take cs, buf.nbChannel, buf.dtype⟩ := by
  unfold mkChunk
  rw [if_pos h]
  congr 1
  have hsub : ((index : Nat) : Int) - ((cs : Nat) : Int)
      = ((index - cs : Nat) : Int) := by
    omega
  rw [pySlice, hsub, sliceIdx_of_le buf.rows.length (index - cs) (by omega),
    sliceIdx_of_le buf.rows.length index (by omega)]
  congr 1
  omega

theorem pySetSlice_mid (P Q R v : List β) (L p : Nat) (hQ : Q.length = L)
    (hv : v.length = L) (hp : p = P.length + L) (hL : 0 < L) :
    (pySlice (P ++ Q ++ R) ((p : Int) - (L : Int)) (p : Int)).length = L
    ∧ pySetSlice (P ++ Q ++ R) ((p : Int) - (L : Int)) (p : Int) v
        = P ++ v ++ R := by
  have hn : (P ++ Q ++ R).length = P.length + L + R.length := by
    simp [List.length_append, hQ]
    omega
  have hsub : ((p : Nat) : Int) - ((L : Nat) : Int) = ((p - L : Nat) : Int) := by
    omega
  have hs : sliceIdx (P ++ Q ++ R).length ((p : Int) - (L : Int)) = p - L := by
    rw [hsub, sliceIdx_of_le _ _ (by omega)]
  have he : sliceIdx (P ++ Q ++ R).length (p : Int) = p := by
    rw [sliceIdx_of_le _ _ (by omega)]
  constructor
  · rw [pySlice_length, hs, he]
    omega
  · rw [pySetSlice, hs, he]
    have hPl : p - L = P.length := by omega
    have htake : (P ++ Q ++ R).take (p - L) = P := by
      rw [hPl, List.append_assoc]
      exact List.take_left' rfl
    have hdrop : (P ++ Q ++ R).drop p = R := by
      have : (P ++ Q).length = p := by simp [List.length_append, hQ]; omega
      exact List.drop_left' this
    rw [htake, hdrop]

theorem passAdapter_loop_step [Zero α] (buf : Buf α) (cs bs : Nat)
    (dt : String) (fuel fuel' : Nat) (hf : fuel = fuel' + 1) (i0 next : Nat)
    (oi : Option Nat) (hg : continueLoop bs oi = true) (hnext : next = i0 + cs) :
    loopRun (passAdapter (α := α)) buf cs bs dt fuel ⟨(), i0, oi⟩ =
      (loopRun (passAdapter (α := α)) buf cs bs dt fuel' ⟨(), next, some next⟩).map
        ((([("main_output", (some next, some (mkChunk buf cs bs next dt)))] :
          Results α)) :: ·) := by
  subst hf
  subst hnext
  simp only [loopRun, hg, if_true, loopIter, passAdapter]
  simp [List.lookup_cons]

theorem handleEntry_write_mid [Zero α] (bs : Nat) (dt : String)
    (arrs : List (String × Buf α)) (k : String) (P Q R v : List (List α))
    (nch : Nat) (dtp : String) (vch : Nat) (vdt : String) (p L : Nat)
    (hk : arrs.lookup k = some ⟨P ++ Q ++ R, nch, dtp⟩)
    (hQ : Q.length = L) (hv : v.length = L) (hp : p = P.length + L)
    (hL : 0 < L) :
    handleEntry bs dt arrs (k, (some p, some ⟨v, vch, vdt⟩))
      = some (setA k ⟨P ++ v ++ R, nch, dtp⟩ arrs) := by
  obtain ⟨hg, hw⟩ := pySetSlice_mid P Q R v L p hQ hv hp hL
  rw [handleEntry_existing bs dt arrs k p ⟨v, vch, vdt⟩ ⟨P ++ Q ++ R, nch, dtp⟩ hk]
  dsimp only [Buf.timeLength]
  rw [hv, if_pos hg, hw]

theorem handleEntry_fresh_write_mid [Zero α] (bs : Nat) (dt : String)
    (arrs : List (String × Buf α)) (k : String) (P Q R v : List (List α))
    (vch : Nat) (vdt : String) (p L : Nat)
    (hk : arrs.lookup k = none)
    (hzero : (zerosBuf (α := α) bs vch dt).rows = P ++ Q ++ R)
    (hQ : Q.length = L) (hv : v.length = L) (hp : p = P.length + L)
    (hL : 0 < L) :
    handleEntry bs dt arrs (k, (some p, some ⟨v, vch, vdt⟩))
      = some (setA k ⟨P ++ v ++ R, vch, dt⟩
          (setA k (zerosBuf bs vch dt) arrs)) := by
  obtain ⟨hg, hw⟩ := pySetSlice_mid P Q R v L p hQ hv hp hL
  rw [handleEntry_fresh bs dt arrs k p ⟨v, vch, vdt⟩ hk]
  dsimp only [Buf.timeLength]
  rw [hv, hzero, if_pos hg, hw]

theorem continueLoop_eq_false_iff (bs : Nat) (oi : Option Nat) :
    continueLoop bs oi = false ↔ ∃ p, oi = some p ∧ bs ≤ p := by
  cases oi <;> simp [continueLoop]

theorem loopRun_eq_nil_iff [Zero α] (A : Adapter σ α) (buf : Buf α)
    (cs bs : Nat) (dt : String) (fuel : Nat) (st : LoopSt σ) :
    loopRun A buf cs bs dt fuel st = some [] ↔
      continueLoop bs st.outIndex = false := by
  cases fuel with
  | zero => cases h : continueLoop bs st.outIndex <;> simp [loopRun, h]
  | succ fuel =>
    cases h : continueLoop bs st.outIndex with
    | false => simp [loopRun, h]
    | true =>
      simp only [loopRun, h, if_true]
      cases hit : loopIter A buf cs bs dt st with
      | none => simp
      | some pr =>
        obtain ⟨st', rets⟩ := pr
        simp

theorem streamRun_delay_bound [Zero α] (buf : Buf α) (cs D w : Nat)
    (sr L : ℚ) (hcs : 0 < cs) (hw : w * cs ≤ D) (hD : D ≤ (w + 1) * cs)
    (hsr : 0 < sr) (hL : 0 < L) :
    ∀ (fuel i : Nat) (sink0 sink : List (List α)),
      sink0.length = cumF cs D w i →
      (∀ q, prevPos cs D w i = some q → (q : ℚ) < L * sr) →
      streamRun (InvCGCmodel buf.nbChannel cs D w "float32") buf cs
        buf.timeLength "float32" sr (some L) fuel
        ⟨i, i * cs, prevPos cs D w i⟩ sink0 = some sink →
      (min (L * sr) ((buf.timeLength : ℚ)) ≤ (sink.length : ℚ)
        ∧ (sink.length : ℚ) < L * sr + (cs : ℚ)) := by
  have hLsr : 0 < L * sr := mul_pos hL hsr
  intro fuel
  induction fuel with
  | zero =>
    intro i sink0 sink hlen hprev h
    cases hgb : continueLoop buf.timeLength (prevPos cs D w i) with
    | true => simp [streamRun, hgb] at h
    | false =>
      simp [streamRun, hgb] at h
      subst h
      obtain ⟨q, hq, hnq⟩ := (continueLoop_eq_false_iff _ _).mp hgb
      cases i with
      | zero => simp [prevPos] at hq
      | succ i' =>
        simp only [prevPos, posAt] at hq
        split_ifs at hq with hi'
        obtain rfl := Option.some_injective _ hq
        have hcum : cumF cs D w (i' + 1) = (i' + 1) * cs - D := by
          simp only [cumF]
          rw [if_neg (by omega)]
        rw [hlen, hcum]
        have hup := hprev _ (by simp only [prevPos, posAt]; rw [if_neg hi'])
        constructor
        · exact le_trans (min_le_right _ _) (by exact_mod_cast hnq)
        · calc ((((i' + 1) * cs - D : Nat)) : ℚ) < L * sr := hup
            _ < L * sr + (cs : ℚ) := by
              have : (0 : ℚ) < (cs : ℚ) := by exact_mod_cast hcs
              linarith
  | succ fuel ih =>
    intro i sink0 sink hlen hprev h
    cases hgb : continueLoop buf.timeLength (prevPos cs D w i) with
    | false =>
      simp [streamRun, hgb] at h
      subst h
      obtain ⟨q, hq, hnq⟩ := (continueLoop_eq_false_iff _ _).mp hgb
      cases i with
      | zero => simp [prevPos] at hq
      | succ i' =>
        simp only [prevPos, posAt] at hq
        split_ifs at hq with hi'
        obtain rfl := Option.some_injective _ hq
        have hcum : cumF cs D w (i' + 1) = (i' + 1) * cs - D := by
          simp only [cumF]
          rw [if_neg (by omega)]
        rw [hlen, hcum]
        have hup := hprev _ (by simp only [prevPos, posAt]; rw [if_neg hi'])
        constructor
        · exact le_trans (min_le_right _ _) (by exact_mod_cast hnq)
        · calc ((((i' + 1) * cs - D : Nat)) : ℚ) < L * sr := hup
            _ < L * sr + (cs : ℚ) := by
              have : (0 : ℚ) < (cs : ℚ) := by exact_mod_cast hcs
              linarith
    | true =>
      simp only [streamRun, hgb, if_true, loopIter, InvCGCmodel,
        List.lookup_cons, beq_self_eq_true] at h
      by_cases iw : i < w
      · simp only [if_pos iw, capHit] at h
        have hstate : (⟨i + 1, (i + 1) * cs, prevPos cs D w (i + 1)⟩ : LoopSt Nat)
            = ⟨i + 1, i * cs + cs, none⟩ := by
          simp only [prevPos, posAt, if_pos iw, Nat.succ_mul]
        refine ih (i + 1) sink0 sink ?_ ?_ ?_
        · rw [hlen]
          simp only [cumF, if_pos (by omega : i ≤ w),
            if_pos (by omega : i + 1 ≤ w)]
        · intro q hq
          simp only [prevPos, posAt, if_pos iw] at hq
          exact Option.noConfusion hq
        · rw [hstate]
          exact h
      · simp only [if_neg iw] at h
        by_cases hcap : (((i * cs + cs - D : Nat) : ℚ) / sr ≥ L)
        · have hcapb : capHit sr (some L) (some (i * cs + cs - D)) = true := by
            simp only [capHit, decide_eq_true_eq]
            exact hcap
          rw [hcapb, if_pos rfl] at h
          obtain rfl := Option.some_injective _ h
          have hpq : L * sr ≤ (((i * cs + cs - D : Nat)) : ℚ) :=
            (le_div_iff₀ hsr).mp hcap
          have hlen' : (sink0 ++ (List.replicate
              (if i = w then i * cs + cs - D else cs)
              (List.replicate buf.nbChannel (0 : α)))).length
              = i * cs + cs - D := by
            rw [List.length_append, List.length_replicate, hlen]
            simp only [cumF]
            by_cases hiw : i = w
            · rw [if_pos (by omega : i ≤ w), if_pos hiw]
              omega
            · have hgt : w < i := by omega
              rw [if_neg (by omega), if_neg hiw]
              have : D ≤ i * cs := le_trans hD (by
                have : w + 1 ≤ i := by omega
                calc (w + 1) * cs ≤ i * cs := Nat.mul_le_mul_right cs this)
              omega
          rw [hlen']
          constructor
          · exact le_trans (min_le_left _ _) hpq
          · by_cases hiw : i = w
            · have hle : i * cs + cs - D ≤ cs := by
                have hmul : i * cs = w * cs := by rw [hiw]
                omega
              calc (((i * cs + cs - D : Nat)) : ℚ) ≤ (cs : ℚ) := by
                    exact_mod_cast hle
                _ < L * sr + (cs : ℚ) := by linarith
            · have hgt : w < i := by omega
              have hqprev := hprev ((i * cs) - D) ?hpp
              case hpp =>
                cases i with
                | zero => omega
                | succ i' =>
                  simp only [prevPos, posAt]
                  rw [if_neg (by omega)]
              have hDle : D ≤ i * cs := le_trans hD (by
                have : w + 1 ≤ i := by omega
                calc (w + 1) * cs ≤ i * cs := Nat.mul_le_mul_right cs this)
              have hsplit : ((i * cs + cs - D : Nat) : ℚ)
                  = ((i * cs - D : Nat) : ℚ) + (cs : ℚ) := by
                have h1 : i * cs + cs - D = (i * cs - D) + cs := by omega
                rw [h1]
                push_cast
                ring
              rw [hsplit]
              linarith
        · have hcapb : capHit sr (some L) (some (i * cs + cs - D)) = false := by
            simp only [capHit, decide_eq_false_iff_not]
            exact hcap
          rw [hcapb] at h
          simp only [Bool.false_eq_true, if_false] at h
          have hgt : w ≤ i := by omega
          have hDle : D ≤ i * cs + cs := by
            calc D ≤ (w + 1) * cs := hD
              _ ≤ (i + 1) * cs := Nat.mul_le_mul_right cs (by omega)
              _ = i * cs + cs := Nat.succ_mul i cs
          have hstate : (⟨i + 1, (i + 1) * cs, prevPos cs D w (i + 1)⟩ : LoopSt Nat)
              = ⟨i + 1, i * cs + cs, some (i * cs + cs - D)⟩ := by
            simp only [prevPos, posAt, if_neg iw, Nat.succ_mul]
          refine ih (i + 1)
            (sink0 ++ List.replicate (if i = w then i * cs + cs - D else cs)
              (List.replicate buf.nbChannel (0 : α))) sink ?_ ?_ ?_
          · rw [List.length_append, List.length_replicate, hlen]
            simp only [cumF]
            rw [if_neg (by omega : ¬ i + 1 ≤ w), Nat.succ_mul]
            by_cases hiw : i = w
            · rw [if_pos (by omega : i ≤ w), if_pos hiw]
              omega
            · rw [if_neg (by omega : ¬ i ≤ w), if_neg hiw]
              have hDle' : D ≤ i * cs := le_trans hD (by
                have : w + 1 ≤ i := by omega
                calc (w + 1) * cs ≤ i * cs := Nat.mul_le_mul_right cs this)
              omega
          · intro q hq
            simp only [prevPos, posAt, if_neg iw, Nat.succ_mul] at hq
            obtain rfl := Option.some_injective _ hq
            rw [ge_iff_le, le_div_iff₀ hsr] at hcap
            push_neg at hcap
            exact hcap
          · rw [hstate]
            exact h

/-! ### Claim theorems -/

/-- C1: in the offline reassembler, for a result chunk with non-null
position `p` targeting an already-allocated stream buffer `arr`, the write
is all-or-nothing: if the destination slice `[p - len, p)` has exactly
`len = c.timeLength` rows the chunk is written there (replacing exactly the
rows `[p - len, p)`); otherwise the reassembly state is returned entirely
unchanged — the chunk is dropped, not clipped, and no error occurs. -/
theorem C1_offline_write_all_or_nothing [Zero α] (bs : Nat) (dt : String)
    (arrs : List (String × Buf α)) (k : String) (p : Nat) (c arr : Buf α)
    (hk : arrs.lookup k = some arr) :
    handleEntry bs dt arrs (k, (some p, some c)) =
      some (if (pySlice arr.rows ((p : Int) - (c.timeLength : Int))
            (p : Int)).length = c.timeLength
        then setA k ⟨pySetSlice arr.rows ((p : Int) - (c.timeLength : Int))
            (p : Int) c.rows, arr.nbChannel, arr.dtype⟩ arrs
        else arrs)
    ∧ (0 < c.timeLength →
        (pySlice arr.rows ((p : Int) - (c.timeLength : Int)) (p : Int)).length
            = c.timeLength →
        pySetSlice arr.rows ((p : Int) - (c.timeLength : Int)) (p : Int) c.rows
          = arr.rows.take (p - c.timeLength) ++ c.rows ++ arr.rows.drop p) :=
  ⟨handleEntry_existing bs dt arrs k p c arr hk,
   fun hL hg => pySetSlice_eq arr.rows p c.timeLength c.rows hL hg⟩

/-- C1 witness: a concrete chunk of length 2 at position 2 into a 3-row
destination is written in full to rows `[0, 2)`. -/
theorem C1_offline_write_all_or_nothing_witness :
    handleEntry 3 "f" [("main_output", (⟨[[1], [2], [3]], 1, "f"⟩ : Buf ℤ))]
        ("main_output", (some 2, some ⟨[[9], [9]], 1, "f"⟩)) =
      some [("main_output", ⟨[[9], [9], [3]], 1, "f"⟩)] := by
  rw [(C1_offline_write_all_or_nothing 3 "f"
    [("main_output", (⟨[[1], [2], [3]], 1, "f"⟩ : Buf ℤ))] "main_output" 2
    ⟨[[9], [9]], 1, "f"⟩ ⟨[[1], [2], [3]], 1, "f"⟩ rfl).1]
  decide

/-- C2: the scheduler loop terminates exactly when the main output's
reported position is non-null and at least the nominal buffer length; while
it is null or below the nominal length the loop performs another iteration;
the guard depends only on the reported position (not on how much input was
consumed); and the margin parameter does not influence the produced run at
all. -/
theorem C2_loop_termination [Zero α] (A : Adapter σ α) (buf : Buf α)
    (cs bs : Nat) (dt : String) :
    (∀ (fuel : Nat) (st : LoopSt σ),
        loopRun A buf cs bs dt fuel st = some [] ↔
          ∃ p, st.outIndex = some p ∧ bs ≤ p)
    ∧ (∀ (fuel : Nat) (st : LoopSt σ), continueLoop bs st.outIndex = true →
        loopRun A buf cs bs dt (fuel + 1) st =
          match loopIter A buf cs bs dt st with
          | none => none
          | some (st', rets) =>
            (loopRun A buf cs bs dt fuel st').map (rets :: ·))
    ∧ (∀ st : LoopSt σ, continueLoop bs st.outIndex = true ↔
        (st.outIndex = none ∨ ∃ p, st.outIndex = some p ∧ p < bs))
    ∧ (∀ m₁ m₂ fuel : Nat,
        make_processing_loop A buf cs dt m₁ fuel
          = make_processing_loop A buf cs dt m₂ fuel) := by
  refine ⟨fun fuel st => ?_, fun fuel st hg => ?_, fun st => ?_,
    fun m₁ m₂ fuel => rfl⟩
  · exact (loopRun_eq_nil_iff A buf cs bs dt fuel st).trans
      (continueLoop_eq_false_iff bs st.outIndex)
  · simp only [loopRun, hg, if_true]
  · cases st.outIndex with
    | none => simp [continueLoop]
    | some p =>
      simp [continueLoop]

/-- C2 witness: a state whose reported position 7 is at least the nominal
length 1 makes the loop stop immediately with no further iteration. -/
theorem C2_loop_termination_witness :
    loopRun (passAdapter (α := ℤ)) ⟨[[0]], 1, "f"⟩ 1 1 "f" 3 ⟨(), 5, some 7⟩
      = some [] :=
  ((C2_loop_termination (passAdapter (α := ℤ)) ⟨[[0]], 1, "f"⟩ 1 1 "f").1 3
    ⟨(), 5, some 7⟩).mpr ⟨7, rfl, by omega⟩

/-- C3: the chunk produced for the iteration that advances the index to
`i0 + chunksize` always has exactly `chunksize` time rows; when the advanced
index exceeds the nominal buffer length it is an entirely zero-filled block
(never a partial slice), and otherwise it is the real source slice
`[index - chunksize, index)`. -/
theorem C3_chunk_exact [Zero α] (buf : Buf α) (cs i0 : Nat) (dt : String) :
    (mkChunk buf cs buf.timeLength (i0 + cs) dt).timeLength = cs
    ∧ (buf.timeLength < i0 + cs →
        (mkChunk buf cs buf.timeLength (i0 + cs) dt).rows
          = List.replicate cs (List.replicate buf.nbChannel 0))
    ∧ (i0 + cs ≤ buf.timeLength →
        (mkChunk buf cs buf.timeLength (i0 + cs) dt).rows
          = (buf.rows.drop i0).take cs) := by
  have hbl : buf.timeLength = buf.rows.length := rfl
  by_cases h : i0 + cs ≤ buf.timeLength
  · have hs : ((i0 + cs : Nat) : Int) - (cs : Int) = ((i0 : Nat) : Int) := by
      push_cast
      ring
    have hrows : (mkChunk buf cs buf.timeLength (i0 + cs) dt).rows
        = (buf.rows.drop i0).take cs := by
      unfold mkChunk
      rw [if_pos h]
      dsimp only
      simp only [pySlice, hs]
      rw [sliceIdx_of_le buf.rows.length i0 (by omega),
        sliceIdx_of_le buf.rows.length (i0 + cs) (by omega)]
      congr 1
      omega
    refine ⟨?_, fun hlt => absurd h (by omega), fun _ => hrows⟩
    show (mkChunk buf cs buf.timeLength (i0 + cs) dt).rows.length = cs
    rw [hrows]
    simp only [List.length_take, List.length_drop]
    omega
  · have hrows : (mkChunk buf cs buf.timeLength (i0 + cs) dt).rows
        = List.replicate cs (List.replicate buf.nbChannel 0) := by
      unfold mkChunk
      rw [if_neg h]
    refine ⟨?_, fun _ => hrows, fun hle => absurd hle h⟩
    show (mkChunk buf cs buf.timeLength (i0 + cs) dt).rows.length = cs
    rw [hrows]
    simp

/-- C3 witness: with a 3-row buffer and chunksize 2, the first chunk is the
real slice `[0, 2)` and the chunk advancing to index 4 is all zeros of
length 2. -/
theorem C3_chunk_exact_witness :
    (mkChunk (⟨[[5], [6], [7]], 1, "f"⟩ : Buf ℤ) 2 3 (0 + 2) "f").rows
        = (([[5], [6], [7]] : List (List ℤ)).drop 0).take 2
    ∧ (mkChunk (⟨[[5], [6], [7]], 1, "f"⟩ : Buf ℤ) 2 3 (2 + 2) "f").rows
        = List.replicate 2 (List.replicate 1 (0 : ℤ)) :=
  ⟨(C3_chunk_exact (⟨[[5], [6], [7]], 1, "f"⟩ : Buf ℤ) 2 0 "f").2.2 (by decide),
   (C3_chunk_exact (⟨[[5], [6], [7]], 1, "f"⟩ : Buf ℤ) 2 2 "f").2.1 (by decide)⟩

/-- C5: two offline runs that differ only in the `buffersize_margin`
parameter produce identical loop results (hence the same iteration count)
and identical destination buffers — the margin value is consumed by
`make_processing_loop` but never used. -/
theorem C5_margin_independent [Zero α] (A : Adapter σ α) (buf : Buf α)
    (cs : Nat) (dt : String) (m₁ m₂ fuel : Nat) :
    make_processing_loop A buf cs dt m₁ fuel
        = make_processing_loop A buf cs dt m₂ fuel
    ∧ run_one_class_offline A buf cs dt m₁ fuel
        = run_one_class_offline A buf cs dt m₂ fuel :=
  ⟨rfl, rfl⟩

/-- C7: offline destination buffers are allocated lazily: a null-position
result changes nothing; the first non-null position for an unseen stream
allocates exactly one zero-initialized buffer of shape
`(nominal length, chunk channel count)` with the run's dtype (then applies
the ordinary guarded write to it); and a stream that already has a buffer
keeps a buffer of the same shape and dtype — it is never reallocated. -/
theorem C7_lazy_allocation [Zero α] (bs : Nat) (dt : String) :
    (∀ (arrs : List (String × Buf α)) (k : String) (d : Option (Buf α)),
        handleEntry bs dt arrs (k, (none, d)) = some arrs)
    ∧ (∀ (arrs : List (String × Buf α)) (k : String) (p : Nat) (c : Buf α),
        arrs.lookup k = none →
        handleEntry bs dt arrs (k, (some p, some c)) =
          some (if (pySlice (zerosBuf (α := α) bs c.nbChannel dt).rows
                ((p : Int) - (c.timeLength : Int)) (p : Int)).length
                = c.timeLength
            then setA k ⟨pySetSlice (zerosBuf (α := α) bs c.nbChannel dt).rows
                ((p : Int) - (c.timeLength : Int)) (p : Int) c.rows,
                c.nbChannel, dt⟩ (setA k (zerosBuf bs c.nbChannel dt) arrs)
            else setA k (zerosBuf bs c.nbChannel dt) arrs))
    ∧ (∀ (arrs : List (String × Buf α)) (k : String) (p : Nat) (c arr : Buf α),
        arrs.lookup k = some arr →
        ∃ arrs', handleEntry bs dt arrs (k, (some p, some c)) = some arrs' ∧
          ∃ arr', arrs'.lookup k = some arr' ∧
            arr'.timeLength = arr.timeLength ∧
            arr'.nbChannel = arr.nbChannel ∧ arr'.dtype = arr.dtype) := by
  refine ⟨fun arrs k d => handleEntry_none bs dt arrs k d,
    fun arrs k p c hk => handleEntry_fresh bs dt arrs k p c hk,
    fun arrs k p c arr hk => ?_⟩
  rw [handleEntry_existing bs dt arrs k p c arr hk]
  by_cases hg : (pySlice arr.rows ((p : Int) - (c.timeLength : Int))
      (p : Int)).length = c.timeLength
  · refine ⟨_, by rw [if_pos hg], ?_⟩
    refine ⟨_, lookup_setA_self arrs k _, ?_, rfl, rfl⟩
    exact pySetSlice_length arr.rows p c.timeLength c.rows rfl hg
  · exact ⟨arrs, by rw [if_neg hg], arr, hk, rfl, rfl, rfl⟩

/-- C7 witness: a fresh stream at position 2 with a 2-row, 1-channel chunk
into a nominal length of 2 allocates a zero buffer and then writes the
chunk, yielding exactly that chunk as the stream's destination. -/
theorem C7_lazy_allocation_witness :
    handleEntry 2 "f" ([] : List (String × Buf ℤ))
        ("m", (some 2, some ⟨[[5], [6]], 1, "f"⟩)) =
      some [("m", ⟨[[5], [6]], 1, "f"⟩)] := by
  rw [(C7_lazy_allocation 2 "f").2.1 [] "m" 2 ⟨[[5], [6]], 1, "f"⟩ rfl]
  decide

/-- C8: `compute_wave_file` fails immediately — returning an explicit error
and touching neither the input nor the adapter — when the soundfile backend
is unavailable (with a distinguishable message), and likewise when the input
and output filenames are identical. -/
theorem C8_precondition_failures [Zero α] (fin fout : String) (buf : Buf α)
    (D w cs : Nat) (sr : ℚ) (lim : Option ℚ) (fuel : Nat) :
    compute_wave_file (α := α) false fin fout buf D w cs sr lim fuel
        = Except.error "soundfile need to be installed"
    ∧ (fin = fout →
        compute_wave_file (α := α) true fin fout buf D w cs sr lim fuel
          = Except.error "assert in_filename != out_filename") := by
  refine ⟨rfl, fun h => ?_⟩
  simp [compute_wave_file, h]

/-- C8 witness: identical filenames produce the assertion error. -/
theorem C8_precondition_failures_witness :
    compute_wave_file (α := ℤ) true "x" "x" ⟨[], 0, "f"⟩ 0 0 1 1 none 0
      = Except.error "assert in_filename != out_filename" :=
  (C8_precondition_failures "x" "x" (⟨[], 0, "f"⟩ : Buf ℤ) 0 0 1 1 none 0).2 rfl

/-- C9: every write the offline reassembler actually performs is entirely in
bounds: when the equal-length guard holds for a non-empty chunk, the
position satisfies `len ≤ p` and `p ≤ destination length` and the write
replaces exactly the rows `[p - len, p)`; a chunk whose position is smaller
than its length, or whose end exceeds the destination, is always skipped
with the state unchanged. -/
theorem C9_writes_in_bounds [Zero α] (bs : Nat) (dt : String)
    (arrs : List (String × Buf α)) (k : String) (p : Nat) (c arr : Buf α)
    (hk : arrs.lookup k = some arr) (hL : 0 < c.timeLength) :
    ((pySlice arr.rows ((p : Int) - (c.timeLength : Int)) (p : Int)).length
        = c.timeLength →
      c.timeLength ≤ p ∧ p ≤ arr.timeLength ∧
        handleEntry bs dt arrs (k, (some p, some c)) =
          some (setA k ⟨arr.rows.take (p - c.timeLength) ++ c.rows
            ++ arr.rows.drop p, arr.nbChannel, arr.dtype⟩ arrs))
    ∧ ((p < c.timeLength ∨ arr.timeLength < p) →
        handleEntry bs dt arrs (k, (some p, some c)) = some arrs) := by
  constructor
  · intro hg
    obtain ⟨h1, h2, _, _⟩ :=
      slice_write_bounds arr.rows p c.timeLength hL hg
    refine ⟨h1, h2, ?_⟩
    rw [handleEntry_existing bs dt arrs k p c arr hk, if_pos hg,
      pySetSlice_eq arr.rows p c.timeLength c.rows hL hg]
  · intro hout
    have hg : ¬ (pySlice arr.rows ((p : Int) - (c.timeLength : Int))
        (p : Int)).length = c.timeLength := by
      intro hg
      obtain ⟨h1, h2, _, _⟩ :=
        slice_write_bounds arr.rows p c.timeLength hL hg
      have : p ≤ arr.timeLength := h2
      rcases hout with h | h
      · omega
      · have : arr.timeLength = arr.rows.length := rfl
        omega
    rw [handleEntry_existing bs dt arrs k p c arr hk, if_neg hg]

/-- C9 witness: a 2-row chunk at position 4 into a 3-row destination (its
end exceeds the buffer) is skipped with no change, while the same chunk at
position 2 is written to rows `[0, 2)`. -/
theorem C9_writes_in_bounds_witness :
    handleEntry 3 "f" [("m", (⟨[[1], [2], [3]], 1, "f"⟩ : Buf ℤ))]
        ("m", (some 4, some ⟨[[9], [9]], 1, "f"⟩)) =
      some [("m", (⟨[[1], [2], [3]], 1, "f"⟩ : Buf ℤ))] :=
  (C9_writes_in_bounds 3 "f" [("m", (⟨[[1], [2], [3]], 1, "f"⟩ : Buf ℤ))]
    "m" 4 ⟨[[9], [9]], 1, "f"⟩ ⟨[[1], [2], [3]], 1, "f"⟩ rfl (by decide)).2
    (Or.inr (by decide))

theorem loopRun_invcgc_shape [Zero α] (nch cs D w : Nat) (dt' : String)
    (buf : Buf α) (cs' bs : Nat) (dt : String) :
    ∀ (fuel : Nat) (st : LoopSt Nat) (retss : List (Results α)),
      loopRun (InvCGCmodel nch cs D w dt') buf cs' bs dt fuel st = some retss →
      ∀ r ∈ retss, ∃ po da, r = [("main_output", (po, da))] ∧
        ∀ c : Buf α, da = some c → c.nbChannel = nch := by
  intro fuel
  induction fuel with
  | zero =>
    intro st retss h r hr
    cases hgb : continueLoop bs st.outIndex with
    | true => simp [loopRun, hgb] at h
    | false =>
      simp [loopRun, hgb] at h
      subst h
      simp at hr
  | succ fuel ih =>
    intro st retss h r hr
    cases hgb : continueLoop bs st.outIndex with
    | false =>
      simp [loopRun, hgb] at h
      subst h
      simp at hr
    | true =>
      simp only [loopRun, hgb, if_true, loopIter, InvCGCmodel,
        List.lookup_cons, beq_self_eq_true] at h
      obtain ⟨retss', hrec, rfl⟩ := Option.map_eq_some'.mp h
      rcases List.mem_cons.mp hr with rfl | htail
      · by_cases hw : st.procSt < w
        · refine ⟨none, none, by simp [hw], ?_⟩
          intro c hc
          simp at hc
        · refine ⟨some (st.index + cs' - D),
            some ⟨List.replicate (if st.procSt = w then st.index + cs' - D
              else cs) (List.replicate nch 0), nch, dt'⟩, by simp [hw], ?_⟩
          intro c hc
          cases hc
          rfl
      · exact ih _ retss' hrec r htail

theorem handleEntry_preserves [Zero α] (bs : Nat) (dt : String) (nch : Nat)
    (arrs arrs' : List (String × Buf α)) (e : String × StreamVal α)
    (hall : ∀ k arr, arrs.lookup k = some arr →
      arr.timeLength = bs ∧ arr.nbChannel = nch ∧ arr.dtype = dt)
    (hdata : ∀ c : Buf α, e.2.2 = some c → c.nbChannel = nch)
    (h : handleEntry bs dt arrs e = some arrs') :
    ∀ k arr, arrs'.lookup k = some arr →
      arr.timeLength = bs ∧ arr.nbChannel = nch ∧ arr.dtype = dt := by
  obtain ⟨k0, po, da⟩ := e
  cases po with
  | none =>
    rw [handleEntry_none] at h
    cases h
    exact hall
  | some p =>
    cases da with
    | none => simp [handleEntry] at h
    | some c =>
      have hch : c.nbChannel = nch := hdata c rfl
      have hzb : (zerosBuf (α := α) bs c.nbChannel dt).timeLength = bs
          ∧ (zerosBuf (α := α) bs c.nbChannel dt).nbChannel = nch
          ∧ (zerosBuf (α := α) bs c.nbChannel dt).dtype = dt := by
        refine ⟨?_, hch, rfl⟩
        simp [Buf.timeLength, zerosBuf]
      cases hk : arrs.lookup k0 with
      | none =>
        rw [handleEntry_fresh bs dt arrs k0 p c hk] at h
        cases h
        intro k arr harr
        split_ifs at harr with hg
        · rcases lookup_setA_or _ _ _ _ _ harr with rfl | h2
          · refine ⟨?_, hch, rfl⟩
            have hlen := pySetSlice_length
              (zerosBuf (α := α) bs c.nbChannel dt).rows p c.timeLength
              c.rows rfl hg
            show (pySetSlice (zerosBuf (α := α) bs c.nbChannel dt).rows
              ((p : Int) - (c.timeLength : Int)) (p : Int) c.rows).length = bs
            rw [hlen]
            exact hzb.1
          · rcases lookup_setA_or _ _ _ _ _ h2 with rfl | h3
            · exact hzb
            · exact hall k arr h3
        · rcases lookup_setA_or _ _ _ _ _ harr with rfl | h2
          · exact hzb
          · exact hall k arr h2
      | some arr0 =>
        have h0 := hall k0 arr0 hk
        rw [handleEntry_existing bs dt arrs k0 p c arr0 hk] at h
        cases h
        intro k arr harr
        split_ifs at harr with hg
        · rcases lookup_setA_or _ _ _ _ _ harr with rfl | h2
          · refine ⟨?_, h0.2.1, h0.2.2⟩
            have hlen := pySetSlice_length arr0.rows p c.timeLength c.rows rfl hg
            show (pySetSlice arr0.rows
              ((p : Int) - (c.timeLength : Int)) (p : Int) c.rows).length = bs
            rw [hlen]
            exact h0.1
          · exact hall k arr h2
        · exact hall k arr harr

theorem processReturns_preserves [Zero α] (bs : Nat) (dt : String) (nch : Nat) :
    ∀ (rets : Results α) (arrs arrs' : List (String × Buf α)),
      (∀ k arr, arrs.lookup k = some arr →
        arr.timeLength = bs ∧ arr.nbChannel = nch ∧ arr.dtype = dt) →
      (∀ e ∈ rets, ∀ c : Buf α, e.2.2 = some c → c.nbChannel = nch) →
      processReturns bs dt arrs rets = some arrs' →
      (∀ k arr, arrs'.lookup k = some arr →
        arr.timeLength = bs ∧ arr.nbChannel = nch ∧ arr.dtype = dt) := by
  intro rets
  induction rets with
  | nil =>
    intro arrs arrs' hall _ h
    simp only [processReturns, List.foldlM_nil] at h
    cases h
    exact hall
  | cons e t ih =>
    intro arrs arrs' hall hdata h
    simp only [processReturns, List.foldlM_cons] at h
    cases hhe : handleEntry bs dt arrs e with
    | none => rw [hhe] at h; simp at h
    | some arrs1 =>
      rw [hhe] at h
      have h1 := handleEntry_preserves bs dt nch arrs arrs1 e hall
        (hdata e (List.mem_cons_self e t)) hhe
      exact ih arrs1 arrs' h1
        (fun e' he' => hdata e' (List.mem_cons_of_mem e he')) h

theorem offline_fold_preserves [Zero α] (bs : Nat) (dt : String) (nch : Nat) :
    ∀ (retss : List (Results α)) (arrs arrs' : List (String × Buf α)),
      (∀ k arr, arrs.lookup k = some arr →
        arr.timeLength = bs ∧ arr.nbChannel = nch ∧ arr.dtype = dt) →
      (∀ r ∈ retss, ∀ e ∈ r, ∀ c : Buf α, e.2.2 = some c → c.nbChannel = nch) →
      retss.foldlM (processReturns bs dt) arrs = some arrs' →
      (∀ k arr, arrs'.lookup k = some arr →
        arr.timeLength = bs ∧ arr.nbChannel = nch ∧ arr.dtype = dt) := by
  intro retss
  induction retss with
  | nil =>
    intro arrs arrs' hall _ h
    simp only [List.foldlM_nil] at h
    cases h
    exact hall
  | cons r t ih =>
    intro arrs arrs' hall hdata h
    simp only [List.foldlM_cons] at h
    cases hpr : processReturns bs dt arrs r with
    | none => rw [hpr] at h; simp at h
    | some arrs1 =>
      rw [hpr] at h
      have h1 := processReturns_preserves bs dt nch r arrs arrs1 hall
        (hdata r (List.mem_cons_self r t)) hpr
      exact ih arrs1 arrs' h1
        (fun r' hr' => hdata r' (List.mem_cons_of_mem r hr')) h

theorem run_offline_invcgc_prop [Zero α] (nch cs D w : Nat) (dt' : String)
    (buf : Buf α) (cs' : Nat) (dt : String) (m fuel : Nat)
    (arrs : List (String × Buf α))
    (h : run_one_class_offline (InvCGCmodel nch cs D w dt') buf cs' dt m fuel
      = some arrs) :
    ∀ k arr, arrs.lookup k = some arr →
      arr.timeLength = buf.timeLength ∧ arr.nbChannel = nch ∧ arr.dtype = dt := by
  simp only [run_one_class_offline] at h
  cases hml : make_processing_loop (InvCGCmodel nch cs D w dt') buf cs' dt m fuel with
  | none => rw [hml] at h; simp at h
  | some retss =>
    rw [hml] at h
    have hshape := loopRun_invcgc_shape nch cs D w dt' buf cs' buf.timeLength dt
      fuel ⟨0, 0, none⟩ retss hml
    refine offline_fold_preserves buf.timeLength dt nch retss [] arrs
      (by simp) ?_ h
    intro r hr e he c hc
    obtain ⟨po, da, rfl, hda⟩ := hshape r hr
    rcases List.mem_singleton.mp he with rfl
    exact hda c hc

/-- C4: with chunksize 512, a 2048-row single-channel float32 buffer and the
zero-delay pass-through adapter reporting position = end index, the offline
run performs exactly 4 scheduler iterations with reported positions
512, 1024, 1536, 2048 in order, and the reassembled destination buffer
equals the original input buffer exactly. -/
theorem C4_concrete_scenario [Zero α] (buf : Buf α)
    (h : buf.rows.length = 2048) (hch : buf.nbChannel = 1)
    (hdt : buf.dtype = "float32") :
    make_processing_loop (passAdapter (α := α)) buf 512 "float32" 0 4 = some
      [[("main_output", (some 512, some ⟨buf.rows.take 512, 1, "float32"⟩))],
       [("main_output",
         (some 1024, some ⟨(buf.rows.drop 512).take 512, 1, "float32"⟩))],
       [("main_output",
         (some 1536, some ⟨(buf.rows.drop 1024).take 512, 1, "float32"⟩))],
       [("main_output",
         (some 2048, some ⟨(buf.rows.drop 1536).take 512, 1, "float32"⟩))]]
    ∧ run_one_class_offline (passAdapter (α := α)) buf 512 "float32" 0 4
        = some [("main_output", buf)] := by
  obtain ⟨rows, nch, dtp⟩ := buf
  dsimp only at h hch hdt ⊢
  subst hch
  subst hdt
  have ha : (rows.take 512).length = 512 := by
    rw [List.length_take]
    omega
  have hb : ((rows.drop 512).take 512).length = 512 := by
    rw [List.length_take, List.length_drop]
    omega
  have hc : ((rows.drop 1024).take 512).length = 512 := by
    rw [List.length_take, List.length_drop]
    omega
  have hd : ((rows.drop 1536).take 512).length = 512 := by
    rw [List.length_take, List.length_drop]
    omega
  have hm1 : mkChunk (⟨rows, 1, "float32"⟩ : Buf α) 512 2048 512 "float32"
      = ⟨rows.take 512, 1, "float32"⟩ := by
    rw [mkChunk_real _ 512 2048 512 "float32" h (by norm_num) (by norm_num)]
    rfl
  have hm2 : mkChunk (⟨rows, 1, "float32"⟩ : Buf α) 512 2048 1024 "float32"
      = ⟨(rows.drop 512).take 512, 1, "float32"⟩ := by
    rw [mkChunk_real _ 512 2048 1024 "float32" h (by norm_num) (by norm_num)]
  have hm3 : mkChunk (⟨rows, 1, "float32"⟩ : Buf α) 512 2048 1536 "float32"
      = ⟨(rows.drop 1024).take 512, 1, "float32"⟩ := by
    rw [mkChunk_real _ 512 2048 1536 "float32" h (by norm_num) (by norm_num)]
  have hm4 : mkChunk (⟨rows, 1, "float32"⟩ : Buf α) 512 2048 2048 "float32"
      = ⟨(rows.drop 1536).take 512, 1, "float32"⟩ := by
    rw [mkChunk_real _ 512 2048 2048 "float32" h (by norm_num) (by norm_num)]
  have s0 : loopRun (passAdapter (α := α)) ⟨rows, 1, "float32"⟩ 512 2048
      "float32" 0 ⟨(), 2048, some 2048⟩ = some [] := rfl
  have s1 : loopRun (passAdapter (α := α)) ⟨rows, 1, "float32"⟩ 512 2048
      "float32" 1 ⟨(), 1536, some 1536⟩ = some
        [[("main_output", (some 2048,
          some (mkChunk (⟨rows, 1, "float32"⟩ : Buf α) 512 2048 2048 "float32")))]] := by
    rw [passAdapter_loop_step _ 512 2048 "float32" 1 0 rfl 1536 2048
      (some 1536) (by decide) (by norm_num), s0]
    rfl
  have s2 : loopRun (passAdapter (α := α)) ⟨rows, 1, "float32"⟩ 512 2048
      "float32" 2 ⟨(), 1024, some 1024⟩ = some
        [[("main_output", (some 1536,
          some (mkChunk (⟨rows, 1, "float32"⟩ : Buf α) 512 2048 1536 "float32")))],
         [("main_output", (some 2048,
          some (mkChunk (⟨rows, 1, "float32"⟩ : Buf α) 512 2048 2048 "float32")))]] := by
    rw [passAdapter_loop_step _ 512 2048 "float32" 2 1 rfl 1024 1536
      (some 1024) (by decide) (by norm_num), s1]
    rfl
  have s3 : loopRun (passAdapter (α := α)) ⟨rows, 1, "float32"⟩ 512 2048
      "float32" 3 ⟨(), 512, some 512⟩ = some
        [[("main_output", (some 1024,
          some (mkChunk (⟨rows, 1, "float32"⟩ : Buf α) 512 2048 1024 "float32")))],
         [("main_output", (some 1536,
          some (mkChunk (⟨rows, 1, "float32"⟩ : Buf α) 512 2048 1536 "float32")))],
         [("main_output", (some 2048,
          some (mkChunk (⟨rows, 1, "float32"⟩ : Buf α) 512 2048 2048 "float32")))]] := by
    rw [passAdapter_loop_step _ 512 2048 "float32" 3 2 rfl 512 1024
      (some 512) (by decide) (by norm_num), s2]
    rfl
  have s4 : loopRun (passAdapter (α := α)) ⟨rows, 1, "float32"⟩ 512 2048
      "float32" 4 ⟨(), 0, none⟩ = some
        [[("main_output", (some 512,
          some (mkChunk (⟨rows, 1, "float32"⟩ : Buf α) 512 2048 512 "float32")))],
         [("main_output", (some 1024,
          some (mkChunk (⟨rows, 1, "float32"⟩ : Buf α) 512 2048 1024 "float32")))],
         [("main_output", (some 1536,
          some (mkChunk (⟨rows, 1, "float32"⟩ : Buf α) 512 2048 1536 "float32")))],
         [("main_output", (some 2048,
          some (mkChunk (⟨rows, 1, "float32"⟩ : Buf α) 512 2048 2048 "float32")))]] := by
    rw [passAdapter_loop_step _ 512 2048 "float32" 4 3 rfl 0 512
      none rfl (by norm_num), s3]
    rfl
  have hL4 : make_processing_loop (passAdapter (α := α)) ⟨rows, 1, "float32"⟩
      512 "float32" 0 4 = some
        [[("main_output", (some 512, some ⟨rows.take 512, 1, "float32"⟩))],
         [("main_output",
           (some 1024, some ⟨(rows.drop 512).take 512, 1, "float32"⟩))],
         [("main_output",
           (some 1536, some ⟨(rows.drop 1024).take 512, 1, "float32"⟩))],
         [("main_output",
           (some 2048, some ⟨(rows.drop 1536).take 512, 1, "float32"⟩))]] := by
    have hl0 : make_processing_loop (passAdapter (α := α)) ⟨rows, 1, "float32"⟩
        512 "float32" 0 4
        = loopRun (passAdapter (α := α)) ⟨rows, 1, "float32"⟩ 512
          (Buf.timeLength ⟨rows, 1, "float32"⟩) "float32" 4 ⟨(), 0, none⟩ := rfl
    rw [hl0, show Buf.timeLength (⟨rows, 1, "float32"⟩ : Buf α) = 2048 from h,
      s4, hm1, hm2, hm3, hm4]
  refine ⟨hL4, ?_⟩
  have hro : run_one_class_offline (passAdapter (α := α)) ⟨rows, 1, "float32"⟩
      512 "float32" 0 4
      = match make_processing_loop (passAdapter (α := α)) ⟨rows, 1, "float32"⟩
          512 "float32" 0 4 with
        | none => none
        | some retss =>
          retss.foldlM
            (processReturns (Buf.timeLength ⟨rows, 1, "float32"⟩) "float32") [] := rfl
  rw [hro, show Buf.timeLength (⟨rows, 1, "float32"⟩ : Buf α) = 2048 from h, hL4]
  dsimp only
  -- step 1: fresh allocation and write of [0, 512)
  have hz1 : (zerosBuf (α := α) 2048 1 "float32").rows
      = [] ++ List.replicate 512 (List.replicate 1 (0 : α))
        ++ List.replicate 1536 (List.replicate 1 (0 : α)) := by
    rw [List.nil_append, ← List.replicate_add]
    rfl
  have hr1 : ([] : List (List α)) ++ rows.take 512
        ++ List.replicate 1536 (List.replicate 1 (0 : α))
      = rows.take 512 ++ List.replicate 512 (List.replicate 1 (0 : α))
        ++ List.replicate 1024 (List.replicate 1 (0 : α)) := by
    rw [List.nil_append, List.append_assoc, ← List.replicate_add]
  have q1 : processReturns 2048 "float32" []
      [("main_output", (some 512, some ⟨rows.take 512, 1, "float32"⟩))]
      = some [("main_output",
          ⟨rows.take 512 ++ List.replicate 512 (List.replicate 1 (0 : α))
            ++ List.replicate 1024 (List.replicate 1 (0 : α)), 1, "float32"⟩)] := by
    simp only [processReturns, List.foldlM_cons, List.foldlM_nil]
    rw [handleEntry_fresh_write_mid 2048 "float32" [] "main_output"
      [] (List.replicate 512 (List.replicate 1 (0 : α)))
      (List.replicate 1536 (List.replicate 1 (0 : α)))
      (rows.take 512) 1 "float32" 512 512 rfl hz1
      (by rw [List.length_replicate]) ha (by norm_num) (by norm_num)]
    rw [hr1]
    rfl
  -- step 2: write of [512, 1024)
  have hr2 : rows.take 512 ++ (rows.drop 512).take 512
        ++ List.replicate 1024 (List.replicate 1 (0 : α))
      = (rows.take 512 ++ (rows.drop 512).take 512)
        ++ List.replicate 512 (List.replicate 1 (0 : α))
        ++ List.replicate 512 (List.replicate 1 (0 : α)) := by
    rw [List.append_assoc (rows.take 512 ++ (rows.drop 512).take 512),
      ← List.replicate_add]
  have q2 : processReturns 2048 "float32"
      [("main_output",
        ⟨rows.take 512 ++ List.replicate 512 (List.replicate 1 (0 : α))
          ++ List.replicate 1024 (List.replicate 1 (0 : α)), 1, "float32"⟩)]
      [("main_output", (some 1024, some ⟨(rows.drop 512).take 512, 1, "float32"⟩))]
      = some [("main_output",
          ⟨(rows.take 512 ++ (rows.drop 512).take 512)
            ++ List.replicate 512 (List.replicate 1 (0 : α))
            ++ List.replicate 512 (List.replicate 1 (0 : α)), 1, "float32"⟩)] := by
    simp only [processReturns, List.foldlM_cons, List.foldlM_nil]
    rw [handleEntry_write_mid 2048 "float32"
      [("main_output",
        ⟨rows.take 512 ++ List.replicate 512 (List.replicate 1 (0 : α))
          ++ List.replicate 1024 (List.replicate 1 (0 : α)), 1, "float32"⟩)]
      "main_output"
      (rows.take 512) (List.replicate 512 (List.replicate 1 (0 : α)))
      (List.replicate 1024 (List.replicate 1 (0 : α)))
      ((rows.drop 512).take 512) 1 "float32" 1 "float32" 1024 512
      rfl (by rw [List.length_replicate]) hb (by omega) (by norm_num)]
    rw [hr2]
    rfl
  -- step 3: write of [1024, 1536)
  have hr3 : (rows.take 512 ++ (rows.drop 512).take 512)
        ++ (rows.drop 1024).take 512
        ++ List.replicate 512 (List.replicate 1 (0 : α))
      = ((rows.take 512 ++ (rows.drop 512).take 512)
          ++ (rows.drop 1024).take 512)
        ++ List.replicate 512 (List.replicate 1 (0 : α)) ++ [] := by
    rw [List.append_nil]
  have q3 : processReturns 2048 "float32"
      [("main_output",
        ⟨(rows.take 512 ++ (rows.drop 512).take 512)
          ++ List.replicate 512 (List.replicate 1 (0 : α))
          ++ List.replicate 512 (List.replicate 1 (0 : α)), 1, "float32"⟩)]
      [("main_output", (some 1536, some ⟨(rows.drop 1024).take 512, 1, "float32"⟩))]
      = some [("main_output",
          ⟨((rows.take 512 ++ (rows.drop 512).take 512)
            ++ (rows.drop 1024).take 512)
            ++ List.replicate 512 (List.replicate 1 (0 : α)) ++ [], 1, "float32"⟩)] := by
    simp only [processReturns, List.foldlM_cons, List.foldlM_nil]
    rw [handleEntry_write_mid 2048 "float32"
      [("main_output",
        ⟨(rows.take 512 ++ (rows.drop 512).take 512)
          ++ List.replicate 512 (List.replicate 1 (0 : α))
          ++ List.replicate 512 (List.replicate 1 (0 : α)), 1, "float32"⟩)]
      "main_output"
      (rows.take 512 ++ (rows.drop 512).take 512)
      (List.replicate 512 (List.replicate 1 (0 : α)))
      (List.replicate 512 (List.replicate 1 (0 : α)))
      ((rows.drop 1024).take 512) 1 "float32" 1 "float32" 1536 512
      rfl (by rw [List.length_replicate]) hc
      (by rw [List.length_append, ha, hb]) (by norm_num)]
    conv_lhs => rw [hr3]
    rfl
  -- step 4: write of [1536, 2048)
  have q4 : processReturns 2048 "float32"
      [("main_output",
        ⟨((rows.take 512 ++ (rows.drop 512).take 512)
          ++ (rows.drop 1024).take 512)
          ++ List.replicate 512 (List.replicate 1 (0 : α)) ++ [], 1, "float32"⟩)]
      [("main_output", (some 2048, some ⟨(rows.drop 1536).take 512, 1, "float32"⟩))]
      = some [("main_output",
          ⟨((rows.take 512 ++ (rows.drop 512).take 512)
            ++ (rows.drop 1024).take 512)
            ++ (rows.drop 1536).take 512 ++ [], 1, "float32"⟩)] := by
    simp only [processReturns, List.foldlM_cons, List.foldlM_nil]
    rw [handleEntry_write_mid 2048 "float32"
      [("main_output",
        ⟨((rows.take 512 ++ (rows.drop 512).take 512)
          ++ (rows.drop 1024).take 512)
          ++ List.replicate 512 (List.replicate 1 (0 : α)) ++ [], 1, "float32"⟩)]
      "main_output"
      ((rows.take 512 ++ (rows.drop 512).take 512) ++ (rows.drop 1024).take 512)
      (List.replicate 512 (List.replicate 1 (0 : α))) []
      ((rows.drop 1536).take 512) 1 "float32" 1 "float32" 2048 512
      rfl (by rw [List.length_replicate]) hd
      (by rw [List.length_append, List.length_append, ha, hb, hc]) (by norm_num)]
    rfl
  -- run the fold and reassemble
  have hfinal : ((rows.take 512 ++ (rows.drop 512).take 512)
      ++ (rows.drop 1024).take 512) ++ (rows.drop 1536).take 512 ++ []
      = rows := by
    rw [List.append_nil]
    have t4 : (rows.drop 1536).take 512 = rows.drop 1536 :=
      List.take_of_length_le (by rw [List.length_drop]; omega)
    rw [t4]
    have t3 : rows.drop 1536 = (rows.drop 1024).drop 512 := by
      rw [List.drop_drop]
    rw [t3, List.append_assoc, List.take_append_drop]
    have t2 : rows.drop 1024 = (rows.drop 512).drop 512 := by
      rw [List.drop_drop]
    rw [t2, List.append_assoc, List.take_append_drop]
    exact List.take_append_drop 512 rows
  rw [List.foldlM_cons, q1]
  show List.foldlM (processReturns 2048 "float32") _ _ = _
  rw [List.foldlM_cons, q2]
  show List.foldlM (processReturns 2048 "float32") _ _ = _
  rw [List.foldlM_cons, q3]
  show List.foldlM (processReturns 2048 "float32") _ _ = _
  rw [List.foldlM_cons, q4]
  show some _ = _
  rw [hfinal]

/-- C4 witness: the scenario instantiated at the all-zero 2048-row
single-channel buffer. -/
theorem C4_concrete_scenario_witness :
    make_processing_loop (passAdapter (α := ℤ))
        ⟨List.replicate 2048 [0], 1, "float32"⟩ 512 "float32" 0 4 = some
      [[("main_output", (some 512,
        some ⟨(List.replicate 2048 ([0] : List ℤ)).take 512, 1, "float32"⟩))],
       [("main_output", (some 1024,
        some ⟨((List.replicate 2048 ([0] : List ℤ)).drop 512).take 512, 1,
          "float32"⟩))],
       [("main_output", (some 1536,
        some ⟨((List.replicate 2048 ([0] : List ℤ)).drop 1024).take 512, 1,
          "float32"⟩))],
       [("main_output", (some 2048,
        some ⟨((List.replicate 2048 ([0] : List ℤ)).drop 1536).take 512, 1,
          "float32"⟩))]]
    ∧ run_one_class_offline (passAdapter (α := ℤ))
        ⟨List.replicate 2048 [0], 1, "float32"⟩ 512 "float32" 0 4
        = some [("main_output", ⟨List.replicate 2048 [0], 1, "float32"⟩)] :=
  C4_concrete_scenario ⟨List.replicate 2048 [0], 1, "float32"⟩
    (by rw [List.length_replicate]) rfl rfl

/-- C10: `compute_numpy` preserves shape at the public interface: a 1-D
input yields a 1-D output of exactly the input's length, a 2-D input yields
a 2-D output of exactly the input's time length with the main output
stream's channel count (which the modelled `InvCGC` fixes to the input's
channel count) and dtype float32 — regardless of divisibility by the
chunksize, because the destination buffer is pre-sized to the nominal
length. -/
theorem C10_compute_numpy_shape [Zero α] (D w : Nat) (sound : NdArray α)
    (cs bcs fuel : Nat) (out : NdArray α)
    (h : compute_numpy D w sound cs bcs fuel = some out) :
    (∀ l, sound = NdArray.one l → ∃ o, out = NdArray.one o ∧
      o.length = l.length)
    ∧ (∀ b, sound = NdArray.two b → ∃ o, out = NdArray.two o ∧
        o.timeLength = b.timeLength ∧ o.nbChannel = b.nbChannel ∧
        o.dtype = "float32") := by
  constructor
  · rintro l rfl
    simp only [compute_numpy] at h
    cases hr : run_one_class_offline
        (InvCGCmodel (Buf.nbChannel ⟨l.map (fun x => [x]), 1, "float32"⟩)
          cs D w "float32")
        ⟨l.map (fun x => [x]), 1, "float32"⟩ cs "float32" bcs fuel with
    | none => rw [hr] at h; simp at h
    | some arrs =>
      rw [hr] at h
      dsimp only at h
      cases hl : arrs.lookup "main_output" with
      | none => rw [hl] at h; simp at h
      | some ob =>
        rw [hl] at h
        dsimp only at h
        cases h
        have hp := run_offline_invcgc_prop _ cs D w "float32"
          ⟨l.map (fun x => [x]), 1, "float32"⟩ cs "float32" bcs fuel arrs hr
          "main_output" ob hl
        refine ⟨ob.rows.map (fun r => r.headD 0), rfl, ?_⟩
        have h1 : ob.rows.length = (l.map (fun x => [x])).length := hp.1
        rw [List.length_map]
        rw [List.length_map] at h1
        exact h1
  · rintro b rfl
    simp only [compute_numpy] at h
    cases hr : run_one_class_offline
        (InvCGCmodel (Buf.nbChannel ⟨b.rows, b.nbChannel, "float32"⟩)
          cs D w "float32")
        ⟨b.rows, b.nbChannel, "float32"⟩ cs "float32" bcs fuel with
    | none => rw [hr] at h; simp at h
    | some arrs =>
      rw [hr] at h
      dsimp only at h
      cases hl : arrs.lookup "main_output" with
      | none => rw [hl] at h; simp at h
      | some ob =>
        rw [hl] at h
        dsimp only at h
        cases h
        have hp := run_offline_invcgc_prop _ cs D w "float32"
          ⟨b.rows, b.nbChannel, "float32"⟩ cs "float32" bcs fuel arrs hr
          "main_output" ob hl
        exact ⟨ob, rfl, hp.1, hp.2.1, hp.2.2⟩

/-- C10 witness: a 1-D input of length 3 (not divisible by chunksize 2)
with a zero-delay modelled adapter yields a 1-D output of length 3. -/
theorem C10_compute_numpy_shape_witness :
    ∃ o, NdArray.one ([0, 0, 0] : List ℤ) = NdArray.one o ∧
      o.length = ([5, 6, 7] : List ℤ).length :=
  (C10_compute_numpy_shape 0 0 (NdArray.one ([5, 6, 7] : List ℤ)) 2 0 9
    (NdArray.one [0, 0, 0]) (by decide)).1 [5, 6, 7] rfl

/-- C6 counterexample: the claim's upper bound fails as stated when the
duration limit is 0 seconds.  With chunksize 2, sample rate 1, a 4-row
input and a zero-delay adapter, the run writes the first chunk before the
cap check, so the produced output holds 2 rows — a duration of one full
chunk, not strictly less than `0 + one chunk duration`. -/
theorem C6_duration_cap_counterexample :
    compute_wave_file true "a" "b"
        (⟨[[0], [0], [0], [0]], 1, "float32"⟩ : Buf ℤ) 0 0 2 1 (some 0) 10
      = Except.ok [[0], [0]]
    ∧ ¬ (((([[0], [0]] : List (List ℤ)).length : ℚ)) < 0 * 1 + ((2 : Nat) : ℚ)) := by
  constructor
  · have h1 : streamRun (InvCGCmodel 1 2 0 0 "float32")
        (⟨[[0], [0], [0], [0]], 1, "float32"⟩ : Buf ℤ) 2 4 "float32" 1
        (some 0) 10 ⟨0, 0, none⟩ [] = some [[0], [0]] := by
      norm_num [streamRun, loopIter, InvCGCmodel, capHit, continueLoop,
        List.lookup_cons, mkChunk]
      rfl
    simp only [compute_wave_file,
      if_neg (show ¬ ("a" : String) = "b" by decide)]
    norm_num [Buf.timeLength]
    rw [h1]
  · norm_num

/-- C6 (amended to a positive duration limit): in streaming mode with a
duration limit `L > 0` seconds, modelling the adapter as the
delay-compensated `InvCGCmodel` (warm-up `w` calls, delay `D` with
`w·cs ≤ D ≤ (w+1)·cs`), the loop stops at the first iteration whose
reported position reaches the cap or the natural end, and the produced
output's length satisfies `min(L·sr, input length) ≤ length < L·sr + cs` —
its duration is at least `min(L, input duration)` and less than `L` plus
one chunk duration. -/
theorem C6_duration_cap [Zero α] (fin fout : String) (buf : Buf α)
    (D w cs : Nat) (sr L : ℚ) (fuel : Nat) (sink : List (List α))
    (hcs : 0 < cs) (hw : w * cs ≤ D) (hD : D ≤ (w + 1) * cs)
    (hsr : 0 < sr) (hL : 0 < L)
    (hrun : compute_wave_file true fin fout buf D w cs sr (some L) fuel
      = Except.ok sink) :
    min (L * sr) ((buf.timeLength : ℚ)) ≤ (sink.length : ℚ)
      ∧ (sink.length : ℚ) < L * sr + (cs : ℚ) := by
  by_cases hfn : fin = fout
  · simp [compute_wave_file, hfn] at hrun
  · have hred : compute_wave_file (α := α) true fin fout buf D w cs sr
        (some L) fuel
        = match streamRun (InvCGCmodel buf.nbChannel cs D w "float32") buf cs
            buf.timeLength "float32" sr (some L) fuel ⟨0, 0, none⟩ [] with
          | none => Except.error "processing loop failed"
          | some sink => Except.ok sink := by
      simp [compute_wave_file, hfn]
    rw [hred] at hrun
    cases hs : streamRun (InvCGCmodel buf.nbChannel cs D w "float32") buf cs
        buf.timeLength "float32" sr (some L) fuel ⟨0, 0, none⟩ [] with
    | none => rw [hs] at hrun; exact Except.noConfusion hrun
    | some s =>
      rw [hs] at hrun
      obtain rfl : s = sink := by cases hrun; rfl
      have hs' : streamRun (InvCGCmodel buf.nbChannel cs D w "float32") buf cs
          buf.timeLength "float32" sr (some L) fuel
          ⟨0, 0 * cs, prevPos cs D w 0⟩ [] = some s := by
        rw [show (0 * cs) = 0 from Nat.zero_mul cs]
        exact hs
      exact streamRun_delay_bound buf cs D w sr L hcs hw hD hsr hL fuel 0
        [] s (by simp [cumF]) (fun q hq => by simp [prevPos] at hq) hs'

/-- C6 witness: chunksize 2, sample rate 1, duration limit 1 second, 4-row
input, zero-delay adapter — the run stops after one chunk of 2 rows, and
`min(1·1, 4) ≤ 2 < 1·1 + 2`. -/
theorem C6_duration_cap_witness :
    min ((1 : ℚ) * 1)
        ((Buf.timeLength (⟨[[0], [0], [0], [0]], 1, "float32"⟩ : Buf ℤ) : ℚ))
      ≤ ((([[0], [0]] : List (List ℤ)).length : ℚ))
    ∧ ((([[0], [0]] : List (List ℤ)).length : ℚ)) < (1 : ℚ) * 1 + ((2 : Nat) : ℚ) :=
  C6_duration_cap "a" "b" (⟨[[0], [0], [0], [0]], 1, "float32"⟩ : Buf ℤ)
    0 0 2 1 1 10 [[0], [0]] (by norm_num) (by norm_num) (by norm_num)
    (by norm_num) (by norm_num) (by
      have h1 : streamRun (InvCGCmodel 1 2 0 0 "float32")
          (⟨[[0], [0], [0], [0]], 1, "float32"⟩ : Buf ℤ) 2 4 "float32" 1
          (some 1) 10 ⟨0, 0, none⟩ [] = some [[0], [0]] := by
        norm_num [streamRun, loopIter, InvCGCmodel, capHit, continueLoop,
          List.lookup_cons, mkChunk]
        rfl
      simp only [compute_wave_file,
        if_neg (show ¬ ("a" : String) = "b" by decide)]
      norm_num [Buf.timeLength]
      rw [h1])

end HLS
